import Mathlib

/-!
Shallow embedding of `megatron/optimizer/optimizer.py` (the distributed
mixed-precision optimizer) and proofs of the spec's claims about it.

Tensors are modelled content-wise: a flat tensor is a `List` of values (or a
function `Nat → ℚ` where only elementwise content matters).  Floating-point
values are modelled as exact rationals extended with `nan` / `±inf` markers,
which is enough to track the non-finite detection logic.  Python exceptions
and assertion failures are modelled with `Except String` / `Option`.
-/

namespace Megatron

/-- Half-open integer interval `[start, stop)`; embeds `class Shard` of
`optimizer.py` (`stop` stands for the Python field `end`, a Lean keyword). -/
structure Shard where
  start : Int
  stop : Int
  deriving Repr, DecidableEq

/-- `Shard.size`, computed in `Shard.__init__` as `end - start`. -/
def Shard.size (s : Shard) : Int := s.stop - s.start

/-- `Shard.normalize(start=0)`: returns `Shard(start, start + self.size)`. -/
def Shard.normalize (s : Shard) (start : Int := 0) : Shard :=
  ⟨start, start + s.size⟩

/-- Membership of index `i` in the half-open interval denoted by a shard. -/
def Shard.mem (s : Shard) (i : Int) : Prop := s.start ≤ i ∧ i < s.stop

instance (s : Shard) (i : Int) : Decidable (s.mem i) := by
  unfold Shard.mem; infer_instance

/-- A shard denotes the empty set of indices. -/
def Shard.isEmpty (s : Shard) : Prop := ∀ i : Int, ¬ s.mem i

/-- `int(math.ceil(gbuf_size / data_parallel_world_size))` from
`get_model_gbuf_shard`, as ceiling division on naturals. -/
def maxGbufShardSize (gbufSize world : Nat) : Nat :=
  (gbufSize + world - 1) / world

/-- One iteration of the loop of `get_model_gbuf_shard` building
`gbuf_world_all_shards`: `gbuf_world_start = r * max_gbuf_shard_size`, and
`gbuf_world_end = min(gbuf_size, gbuf_world_start + max_gbuf_shard_size)`. -/
def gbufShardFor (gbufSize world r : Nat) : Shard :=
  let c : Int := maxGbufShardSize gbufSize world
  ⟨(r : Int) * c, min (gbufSize : Int) ((r : Int) * c + c)⟩

/-- The list `gbuf_world_all_shards` of `get_model_gbuf_shard`
(`for r in range(data_parallel_world_size)`). -/
def gbufWorldAllShards (gbufSize world : Nat) : List Shard :=
  (List.range world).map (gbufShardFor gbufSize world)

theorem gbufWorldAllShards_length (gbufSize world : Nat) :
    (gbufWorldAllShards gbufSize world).length = world := by
  unfold gbufWorldAllShards
  rw [List.length_map, List.length_range]

theorem gbufWorldAllShards_get (gbufSize world r : Nat) (h : r < world) :
    (gbufWorldAllShards gbufSize world).get
      ⟨r, by simpa [gbufWorldAllShards_length] using h⟩ =
      gbufShardFor gbufSize world r := by
  unfold gbufWorldAllShards
  simp only [List.get_eq_getElem, List.getElem_map, List.getElem_range]

/-- `W * ⌈N/W⌉ ≥ N` for `W ≥ 1`. -/
theorem le_world_mul_chunk (gbufSize world : Nat) (hw : 1 ≤ world) :
    gbufSize ≤ world * maxGbufShardSize gbufSize world := by
  unfold maxGbufShardSize
  have hdm := Nat.div_add_mod (gbufSize + world - 1) world
  have hmlt : (gbufSize + world - 1) % world < world :=
    Nat.mod_lt _ (Nat.lt_of_lt_of_le Nat.zero_lt_one hw)
  omega

theorem mem_gbufShardFor (N W r : Nat) (i : Int) :
    (gbufShardFor N W r).mem i ↔
      (r : Int) * maxGbufShardSize N W ≤ i ∧ i < N ∧
        i < (r : Int) * maxGbufShardSize N W + maxGbufShardSize N W := by
  unfold gbufShardFor Shard.mem
  simp only [lt_min_iff]

theorem gbufShardFor_disjoint (N W r1 r2 : Nat) (hr : r1 < r2) (i : Int) :
    ¬ ((gbufShardFor N W r1).mem i ∧ (gbufShardFor N W r2).mem i) := by
  rintro ⟨h1, h2⟩
  rw [mem_gbufShardFor] at h1 h2
  have hcle : ((r1 : Int) + 1) * maxGbufShardSize N W ≤
      (r2 : Int) * maxGbufShardSize N W := by
    apply mul_le_mul_of_nonneg_right _ (by positivity)
    exact_mod_cast hr
  have : ((r1 : Int) + 1) * maxGbufShardSize N W =
      (r1 : Int) * maxGbufShardSize N W + maxGbufShardSize N W := by ring
  omega

theorem gbufShardFor_cover (N W : Nat) (hW : 1 ≤ W) (i : Int)
    (h0 : 0 ≤ i) (hN : i < N) :
    ∃ r : Nat, r < W ∧ (gbufShardFor N W r).mem i := by
  have hbig := le_world_mul_chunk N W hW
  obtain ⟨n, rfl⟩ : ∃ n : Nat, i = (n : Int) :=
    ⟨i.toNat, (Int.toNat_of_nonneg h0).symm⟩
  have hnN : n < N := by exact_mod_cast hN
  have hcpos : 0 < maxGbufShardSize N W := by
    by_contra h
    have hz : maxGbufShardSize N W = 0 := by omega
    rw [hz, Nat.mul_zero] at hbig
    omega
  refine ⟨n / maxGbufShardSize N W, ?_, ?_⟩
  · refine Nat.div_lt_of_lt_mul ?_
    calc n < N := hnN
      _ ≤ W * maxGbufShardSize N W := hbig
      _ = maxGbufShardSize N W * W := Nat.mul_comm _ _
  · rw [mem_gbufShardFor]
    refine ⟨?_, by exact_mod_cast hnN, ?_⟩
    · exact_mod_cast Nat.div_mul_le_self n (maxGbufShardSize N W)
    · have hdm := Nat.div_add_mod n (maxGbufShardSize N W)
      have hmlt := Nat.mod_lt n hcpos
      have hcomm : n / maxGbufShardSize N W * maxGbufShardSize N W =
          maxGbufShardSize N W * (n / maxGbufShardSize N W) :=
        Nat.mul_comm _ _
      have hlt : n < n / maxGbufShardSize N W * maxGbufShardSize N W +
          maxGbufShardSize N W := by omega
      exact_mod_cast hlt

theorem gbufShardFor_mem_bounds (N W r : Nat) (i : Int)
    (h : (gbufShardFor N W r).mem i) : 0 ≤ i ∧ i < N := by
  rw [mem_gbufShardFor] at h
  have : (0 : Int) ≤ (r : Int) * maxGbufShardSize N W := by positivity
  omega

theorem gbufShardFor_empty_mono (N W r1 r2 : Nat) (h12 : r1 ≤ r2)
    (h1 : (gbufShardFor N W r1).isEmpty) : (gbufShardFor N W r2).isEmpty := by
  intro i hi
  rw [mem_gbufShardFor] at hi
  apply h1 (i - ((r2 : Int) - (r1 : Int)) * maxGbufShardSize N W)
  rw [mem_gbufShardFor]
  have hr12 : (r1 : Int) ≤ (r2 : Int) := by exact_mod_cast h12
  have hd : (0 : Int) ≤ ((r2 : Int) - (r1 : Int)) * maxGbufShardSize N W :=
    mul_nonneg (by omega) (by positivity)
  have hsplit : (r2 : Int) * maxGbufShardSize N W =
      (r1 : Int) * maxGbufShardSize N W +
        ((r2 : Int) - (r1 : Int)) * maxGbufShardSize N W := by ring
  omega

/-- Canonical statement of the (amended) partition invariants of the world
shards produced by `get_model_gbuf_shard` for buffer length `N` and
data-parallel world size `W`. -/
def WorldPartitionOK (N W : Nat) : Prop :=
  -- every shard whose start does not exceed N has end ≥ start
  (∀ s ∈ gbufWorldAllShards N W, s.start ≤ (N : Int) → s.start ≤ s.stop) ∧
  -- pairwise disjoint
  List.Pairwise (fun s t => ∀ i : Int, ¬ (s.mem i ∧ t.mem i))
    (gbufWorldAllShards N W) ∧
  -- the union of the shards is exactly [0, N)
  (∀ i : Int, (0 ≤ i ∧ i < N) ↔ ∃ s ∈ gbufWorldAllShards N W, s.mem i) ∧
  -- only a suffix of the shard list is empty
  (∀ r1 r2 : Nat, r1 ≤ r2 → ∀ h1 : r1 < (gbufWorldAllShards N W).length,
    ∀ h2 : r2 < (gbufWorldAllShards N W).length,
    ((gbufWorldAllShards N W).get ⟨r1, h1⟩).isEmpty →
      ((gbufWorldAllShards N W).get ⟨r2, h2⟩).isEmpty)

theorem gbufShardFor_start (N W r : Nat) :
    (gbufShardFor N W r).start = (r : Int) * maxGbufShardSize N W := rfl

theorem gbufShardFor_stop (N W r : Nat) :
    (gbufShardFor N W r).stop =
      min (N : Int)
        ((r : Int) * maxGbufShardSize N W + maxGbufShardSize N W) := rfl

/-- C1 (counterexample): at buffer length `N = 1` and world size `W = 3`,
the chunk is `⌈1/3⌉ = 1` and shard 2 is `[2, 1)`, so the claim's conjunct
"every shard satisfies `end ≥ start`" is false as stated. -/
theorem C1_counterexample :
    ¬ (∀ s ∈ gbufWorldAllShards 1 3, s.start ≤ s.stop) := by decide

/-- C1 (amended): for every buffer length `N ≥ 0` and world size `W ≥ 1`,
the world shards produced by `get_model_gbuf_shard` are pairwise disjoint,
their union is exactly `[0, N)`, only a suffix of the shard list is empty,
and every shard whose `start` does not exceed `N` satisfies `end ≥ start`
(shards with `start > N` can arise when `N < (W-1)·⌈N/W⌉` and then have
`end < start`, denoting the empty range). -/
theorem C1_world_shards_partition (N W : Nat) (hW : 1 ≤ W) :
    WorldPartitionOK N W := by
  refine ⟨?_, ?_, ?_, ?_⟩
  · intro s hs hle
    rw [gbufWorldAllShards, List.mem_map] at hs
    obtain ⟨r, _, rfl⟩ := hs
    rw [gbufShardFor_start] at hle ⊢
    rw [gbufShardFor_stop, le_min_iff]
    have hc : (0 : Int) ≤ (maxGbufShardSize N W : Int) := Int.natCast_nonneg _
    exact ⟨hle, by omega⟩
  · rw [List.pairwise_iff_getElem]
    intro a b ha hb hab
    simp only [gbufWorldAllShards, List.getElem_map, List.getElem_range]
    exact gbufShardFor_disjoint N W a b hab
  · intro i
    constructor
    · rintro ⟨h0, hN⟩
      obtain ⟨r, hr, hmem⟩ := gbufShardFor_cover N W hW i h0 hN
      exact ⟨gbufShardFor N W r,
        List.mem_map_of_mem _ (List.mem_range.mpr hr), hmem⟩
    · rintro ⟨s, hs, hmem⟩
      rw [gbufWorldAllShards, List.mem_map] at hs
      obtain ⟨r, _, rfl⟩ := hs
      exact gbufShardFor_mem_bounds N W r i hmem
  · intro r1 r2 h12 h1 h2
    have hw1 : r1 < W := by
      rw [gbufWorldAllShards_length] at h1; exact h1
    have hw2 : r2 < W := by
      rw [gbufWorldAllShards_length] at h2; exact h2
    have e1 := gbufWorldAllShards_get N W r1 hw1
    have e2 := gbufWorldAllShards_get N W r2 hw2
    rw [show ((gbufWorldAllShards N W).get ⟨r1, h1⟩ =
          gbufShardFor N W r1) from e1,
        show ((gbufWorldAllShards N W).get ⟨r2, h2⟩ =
          gbufShardFor N W r2) from e2]
    exact gbufShardFor_empty_mono N W r1 r2 h12

/-- C1 (witness): the amended partition invariants hold concretely at
`N = 70`, `W = 4` (the spec's unequal-tail scenario). -/
theorem C1_world_shards_partition_witness :
    1 ≤ 4 ∧ WorldPartitionOK 70 4 :=
  ⟨by decide, C1_world_shards_partition 70 4 (by decide)⟩

/-- The three derived ranges stored per parameter by
`get_model_gbuf_param_shard_map`. -/
structure ParamShardEntry where
  gbuf_world : Shard
  gbuf_local : Shard
  param : Shard
  deriving Repr, DecidableEq

/-- The loop body of `get_model_gbuf_param_shard_map` for one entry
`param → (param_world_start, param_world_end)` of
`model._grad_buffer_param_index_map[dtype]`, against the rank's world shard.
Returns `none` when the intersection test `param_local_end >
param_local_start` fails (the parameter is then not added to the map). -/
def paramShardFor (gbufWorldShard : Shard) (pwi : Nat × Int × Int) :
    Option (Nat × ParamShardEntry) :=
  let paramWorldStart := pwi.2.1
  let paramWorldEnd := pwi.2.2
  let paramLocalStart := max 0 (paramWorldStart - gbufWorldShard.start)
  let paramLocalEnd :=
    min gbufWorldShard.size (paramWorldEnd - gbufWorldShard.start)
  if paramLocalEnd > paramLocalStart then
    let paramLocalShard : Shard := ⟨paramLocalStart, paramLocalEnd⟩
    let paramWorldShard :=
      paramLocalShard.normalize (paramLocalStart + gbufWorldShard.start)
    let subParamStart := max 0 (gbufWorldShard.start - paramWorldStart)
    let subParamShard := paramLocalShard.normalize subParamStart
    some (pwi.1, ⟨paramWorldShard, paramLocalShard, subParamShard⟩)
  else none

/-- `get_model_gbuf_param_shard_map`: iterate the parameter index map and
keep the in-range parameters, as an ordered association list. -/
def getModelGbufParamShardMap (paramWorldIndexMap : List (Nat × Int × Int))
    (gbufWorldShard : Shard) : List (Nat × ParamShardEntry) :=
  paramWorldIndexMap.filterMap (paramShardFor gbufWorldShard)

/-- The canonical value of a kept `param_shard_map` entry, in terms of the
parameter world range `[p0, p1)` and the rank's world shard `[s0, s1)`. -/
def canonicalEntry (s : Shard) (p0 p1 : Int) : ParamShardEntry :=
  ⟨⟨max p0 s.start, min p1 s.stop⟩,
    ⟨max p0 s.start - s.start, min p1 s.stop - s.start⟩,
    ⟨max 0 (s.start - p0),
      max 0 (s.start - p0) + (min p1 s.stop - max p0 s.start)⟩⟩

theorem paramShardFor_eq_some (s : Shard) (p q : Nat) (p0 p1 : Int)
    (e : ParamShardEntry) :
    paramShardFor s (p, p0, p1) = some (q, e) ↔
      q = p ∧ max p0 s.start < min p1 s.stop ∧ e = canonicalEntry s p0 p1 := by
  obtain ⟨⟨ews, ewe⟩, ⟨els, ele⟩, ⟨eps, epe⟩⟩ := e
  simp only [paramShardFor, canonicalEntry, Shard.normalize, Shard.size]
  split_ifs with hc
  · simp only [Option.some.injEq, Prod.mk.injEq, ParamShardEntry.mk.injEq,
      Shard.mk.injEq]
    omega
  · simp only [reduceCtorEq, false_iff, not_and, ParamShardEntry.mk.injEq,
      Shard.mk.injEq]
    omega

/-- C2: a parameter with world range `[p0, p1)` appears in the rank's
`param_map` built by `get_model_gbuf_param_shard_map` against the world
shard `s = [s0, s1)` iff the intersection `[max(p0,s0), min(p1,s1))` is
non-empty; in that case `gbuf_world` is that intersection, `gbuf_local` is
it shifted down by `s0`, `param` is `[max(0,s0-p0), max(0,s0-p0)+size)`
(see `canonicalEntry`), and all three ranges have equal size. -/
theorem C2_param_shard_map (pmap : List (Nat × Int × Int)) (s : Shard)
    (p : Nat) (e : ParamShardEntry) :
    ((p, e) ∈ getModelGbufParamShardMap pmap s ↔
      ∃ p0 p1 : Int, (p, p0, p1) ∈ pmap ∧ max p0 s.start < min p1 s.stop ∧
        e = canonicalEntry s p0 p1) ∧
    ((p, e) ∈ getModelGbufParamShardMap pmap s →
      e.gbuf_world.size = e.gbuf_local.size ∧
        e.gbuf_local.size = e.param.size) := by
  have hmem : (p, e) ∈ getModelGbufParamShardMap pmap s ↔
      ∃ p0 p1 : Int, (p, p0, p1) ∈ pmap ∧ max p0 s.start < min p1 s.stop ∧
        e = canonicalEntry s p0 p1 := by
    unfold getModelGbufParamShardMap
    rw [List.mem_filterMap]
    constructor
    · rintro ⟨⟨pp, pp0, pp1⟩, hin, hsome⟩
      rw [paramShardFor_eq_some] at hsome
      obtain ⟨rfl, hlt, he⟩ := hsome
      exact ⟨pp0, pp1, hin, hlt, he⟩
    · rintro ⟨p0, p1, hin, hlt, he⟩
      exact ⟨(p, p0, p1), hin,
        (paramShardFor_eq_some s p p p0 p1 e).mpr ⟨rfl, hlt, he⟩⟩
  refine ⟨hmem, fun h => ?_⟩
  obtain ⟨p0, p1, _, _, rfl⟩ := hmem.mp h
  unfold canonicalEntry Shard.size
  constructor <;> simp

/-- C2 (witness): the spec's cross-boundary scenario S3, rank 1: parameters
`[0,7)` and `[7,10)` against world shard `[5,10)`; parameter 0 is kept with
`gbuf_world = [5,7)`, `gbuf_local = [0,2)`, `param = [5,7)`. -/
theorem C2_param_shard_map_witness :
    ((0, (⟨⟨5, 7⟩, ⟨0, 2⟩, ⟨5, 7⟩⟩ : ParamShardEntry)) ∈
      getModelGbufParamShardMap [(0, 0, 7), (1, 7, 10)] ⟨5, 10⟩) ∧
    ((⟨⟨5, 7⟩, ⟨0, 2⟩, ⟨5, 7⟩⟩ : ParamShardEntry).gbuf_world.size =
        (⟨⟨5, 7⟩, ⟨0, 2⟩, ⟨5, 7⟩⟩ : ParamShardEntry).gbuf_local.size ∧
      (⟨⟨5, 7⟩, ⟨0, 2⟩, ⟨5, 7⟩⟩ : ParamShardEntry).gbuf_local.size =
        (⟨⟨5, 7⟩, ⟨0, 2⟩, ⟨5, 7⟩⟩ : ParamShardEntry).param.size) :=
  ⟨by decide,
    (C2_param_shard_map [(0, 0, 7), (1, 7, 10)] ⟨5, 10⟩ 0
      ⟨⟨5, 7⟩, ⟨0, 2⟩, ⟨5, 7⟩⟩).2 (by decide)⟩

/-- Closed set of supported grad-buffer element types (spec §9: `{F16, BF16,
F32}`); stands for the torch dtype keys of `model._grad_buffers`. -/
inductive Dtype where
  | F16
  | BF16
  | F32
  deriving Repr, DecidableEq

/-- The record returned by `get_model_gbuf_shard` for one `(model, dtype)`
pair (`localShard` stands for the Python key `"local"`, a Lean keyword). -/
structure GbufShardMap where
  localShard : Shard
  world : Shard
  world_all : List Shard
  param_map : List (Nat × ParamShardEntry)
  deriving Repr, DecidableEq

/-- `get_model_gbuf_shard`: build the world shards, select this rank's
shard (`none` models the IndexError when `rank ≥ world`), normalize it to
a local shard, and attach the param shard map. -/
def getModelGbufShard (dataParallelRank dataParallelWorldSize : Nat)
    (gbufSize : Nat) (paramWorldIndexMap : List (Nat × Int × Int)) :
    Option GbufShardMap :=
  let gbufWorldAll := gbufWorldAllShards gbufSize dataParallelWorldSize
  (gbufWorldAll.get? dataParallelRank).map fun gbufWorldShard =>
    { localShard := gbufWorldShard.normalize
      world := gbufWorldShard
      world_all := gbufWorldAll
      param_map := getModelGbufParamShardMap paramWorldIndexMap gbufWorldShard }

/-- Accumulator entry of the `group_shards` loop of
`get_optimizer_group_shards` (before `orig_group` is attached). -/
structure GroupShard where
  size : Int
  param_map : List (Nat × Shard)
  deriving Repr, DecidableEq

/-- A retained optimizer group shard, with its original group attached
(`group_shard["orig_group"] = param_groups[group_index]`). -/
structure OptGroupShard where
  size : Int
  param_map : List (Nat × Shard)
  orig_group : List Nat
  deriving Repr, DecidableEq

/-- The dict `param_group_map` of `get_optimizer_group_shards`: maps a
parameter to the index of the last group listing it (Python dict
assignment overwrites; in practice groups are disjoint). -/
def buildParamGroupMap : List (List Nat) → Nat → Option Nat
  | [], _ => none
  | g :: gs, p =>
    match buildParamGroupMap gs p with
    | some i => some (i + 1)
    | none => if p ∈ g then some 0 else none

/-- Python dict assignment `m[k] = v` on an insertion-ordered association
list: replace in place when the key exists, append otherwise. -/
def dictSet (m : List (Nat × Shard)) (k : Nat) (v : Shard) :
    List (Nat × Shard) :=
  if m.any (fun e => e.1 == k) then
    m.map (fun e => if e.1 == k then (k, v) else e)
  else m ++ [(k, v)]

/-- One iteration of the `group_shards` loop of
`get_optimizer_group_shards` for parameter `pe.1` of shard size `pe.2`
(`param_size = ...["param"].size`): look the parameter up in
`param_group_map` (KeyError modelled as `none`), give it the range
`[group_size, group_size + param_size)` of its group and grow the group. -/
def groupShardsStep (pgm : Nat → Option Nat) (gs : List GroupShard)
    (pe : Nat × Int) : Option (List GroupShard) :=
  match pgm pe.1 with
  | none => none
  | some groupIndex =>
    match gs.get? groupIndex with
    | none => none
    | some groupShard =>
      let paramGroupShard : Shard := ⟨groupShard.size, groupShard.size + pe.2⟩
      some (gs.set groupIndex
        ⟨groupShard.size + pe.2,
          dictSet groupShard.param_map pe.1 paramGroupShard⟩)

/-- The stable iteration order of `get_optimizer_group_shards` over the
shard maps: models, then dtypes, then parameters of each `param_map`,
projected to `(param, param_shard_size)`. -/
def flattenGbufParams
    (modelGbufShards : List (List (Dtype × GbufShardMap))) :
    List (Nat × Int) :=
  modelGbufShards.flatMap fun modelMap =>
    modelMap.flatMap fun dtypeEntry =>
      dtypeEntry.2.param_map.map fun pe => (pe.1, pe.2.param.size)

/-- `get_optimizer_group_shards`: run the accumulation loop over all
`(model, dtype, param)` entries, attach each original group, and drop the
zero-size groups. -/
def getOptimizerGroupShards (paramGroups : List (List Nat))
    (modelGbufShards : List (List (Dtype × GbufShardMap))) :
    Option (List OptGroupShard) :=
  let pgm := buildParamGroupMap paramGroups
  let init : List GroupShard := paramGroups.map fun _ => ⟨0, []⟩
  ((flattenGbufParams modelGbufShards).foldlM (groupShardsStep pgm) init).map
    fun gs =>
      ((gs.zip paramGroups).map fun gz =>
          OptGroupShard.mk gz.1.size gz.1.param_map gz.2).filter
        fun g => 0 < g.size

/-- A flat tensor allocation (`torch.empty((shard_size,), dtype=...)`),
modelled by its length and element type. -/
structure TensorAlloc where
  size : Int
  dtype : Dtype
  deriving Repr, DecidableEq

/-- The master parameter produced by `allocate_main_param_shards` for one
group: a flat float32 parameter with a flat float32 `.grad`, marked with
tensor-model-parallel attributes
(`mpu.set_tensor_model_parallel_attributes(main_param, True, 0, 1)`). -/
structure MainParamShard where
  data : TensorAlloc
  grad : TensorAlloc
  tensorModelParallel : Bool
  deriving Repr, DecidableEq

/-- `allocate_main_param_shards`: for each group shard, assert
`group_size != 0` (`none` models the assertion failure) and allocate the
flat float32 master parameter and master gradient of length `group_size`;
the main parameter replaces the group's `params` list. -/
def allocateMainParamShards (optGroupShards : List OptGroupShard) :
    Option (List MainParamShard) :=
  optGroupShards.mapM fun groupShard =>
    if groupShard.size ≠ 0 then
      some ⟨⟨groupShard.size, Dtype.F32⟩, ⟨groupShard.size, Dtype.F32⟩, true⟩
    else none

/-- Sum of the sizes of the master ranges of a group's `param_map`. -/
def sumSizes (m : List (Nat × Shard)) : Int :=
  (m.map fun e => e.2.size).sum

/-- The master ranges of a `param_map` are assigned consecutively starting
at cursor `c`: each entry starts where the previous one stopped. -/
def chainedFromB (c : Int) : List (Nat × Shard) → Bool
  | [] => true
  | e :: rest => (e.2.start == c) && chainedFromB e.2.stop rest

/-- Final cursor after walking a `param_map` from cursor `c`. -/
def chainEnd : Int → List (Nat × Shard) → Int
  | c, [] => c
  | _, e :: rest => chainEnd e.2.stop rest

theorem chainEnd_append (c : Int) (l1 l2 : List (Nat × Shard)) :
    chainEnd c (l1 ++ l2) = chainEnd (chainEnd c l1) l2 := by
  induction l1 generalizing c with
  | nil => rfl
  | cons e rest ih => exact ih e.2.stop

theorem chainEnd_of_chained (c : Int) (l : List (Nat × Shard))
    (h : chainedFromB c l = true) : chainEnd c l = c + sumSizes l := by
  induction l generalizing c with
  | nil => simp [chainEnd, sumSizes]
  | cons e rest ih =>
    rw [chainedFromB, Bool.and_eq_true, beq_iff_eq] at h
    obtain ⟨hs, hrest⟩ := h
    have := ih e.2.stop hrest
    simp only [chainEnd, sumSizes, List.map_cons, List.sum_cons] at *
    rw [this]
    unfold Shard.size
    omega

theorem chainedFromB_append (c : Int) (l : List (Nat × Shard))
    (e : Nat × Shard) (hl : chainedFromB c l = true)
    (he : e.2.start = chainEnd c l) : chainedFromB c (l ++ [e]) = true := by
  induction l generalizing c with
  | nil =>
    simp only [List.nil_append, chainedFromB, Bool.and_eq_true, beq_iff_eq]
    exact ⟨he, trivial⟩
  | cons f rest ih =>
    rw [chainedFromB, Bool.and_eq_true, beq_iff_eq] at hl
    simp only [List.cons_append, chainedFromB, Bool.and_eq_true, beq_iff_eq]
    exact ⟨hl.1, ih f.2.stop hl.2 he⟩

theorem chainEnd_ge (c : Int) (l : List (Nat × Shard))
    (hc : chainedFromB c l = true) (hnn : ∀ e ∈ l, 0 ≤ e.2.size) :
    c ≤ chainEnd c l := by
  induction l generalizing c with
  | nil => simp [chainEnd]
  | cons e rest ih =>
    rw [chainedFromB, Bool.and_eq_true, beq_iff_eq] at hc
    have h1 : e.2.stop ≤ chainEnd e.2.stop rest :=
      ih e.2.stop hc.2 (fun f hf => hnn f (List.mem_cons_of_mem _ hf))
    have h2 : 0 ≤ e.2.size := hnn e (List.mem_cons_self e rest)
    unfold Shard.size at h2
    rw [chainEnd]
    omega

/-- From consecutiveness and nonnegative sizes: entries are ordered and
contained in `[c, chainEnd c l]`. -/
theorem chained_ordered (c : Int) (l : List (Nat × Shard))
    (hc : chainedFromB c l = true) (hnn : ∀ e ∈ l, 0 ≤ e.2.size) :
    (∀ e ∈ l, c ≤ e.2.start ∧ e.2.stop ≤ chainEnd c l) ∧
      List.Pairwise (fun a b : Nat × Shard => a.2.stop ≤ b.2.start) l := by
  induction l generalizing c with
  | nil => exact ⟨by simp, List.Pairwise.nil⟩
  | cons e rest ih =>
    rw [chainedFromB, Bool.and_eq_true, beq_iff_eq] at hc
    obtain ⟨hs, hrest⟩ := hc
    have hnnrest : ∀ f ∈ rest, 0 ≤ f.2.size :=
      fun f hf => hnn f (List.mem_cons_of_mem _ hf)
    obtain ⟨hbd, hpw⟩ := ih e.2.stop hrest hnnrest
    have hse : 0 ≤ e.2.size := hnn e (List.mem_cons_self e rest)
    unfold Shard.size at hse
    refine ⟨?_, ?_⟩
    · intro f hf
      rcases List.mem_cons.mp hf with rfl | hf'
      · refine ⟨by omega, ?_⟩
        have := chainEnd_ge f.2.stop rest hrest hnnrest
        rw [chainEnd]
        omega
      · have := hbd f hf'
        constructor <;> [omega; exact this.2]
    · exact List.Pairwise.cons (fun f hf => (hbd f hf).1) hpw

/-- Invariant of the `group_shards` accumulation loop: every group has
nonnegative size, consecutively assigned nonnegative-size ranges ending at
the group's size, and only keys among the already-processed parameters. -/
def GoodState (seen : List Nat) (gs : List GroupShard) : Prop :=
  ∀ g ∈ gs, 0 ≤ g.size ∧ chainedFromB 0 g.param_map = true ∧
    chainEnd 0 g.param_map = g.size ∧
    (∀ e ∈ g.param_map, 0 ≤ e.2.size) ∧
    (∀ e ∈ g.param_map, e.1 ∈ seen)

theorem goodState_init (paramGroups : List (List Nat)) :
    GoodState [] (paramGroups.map fun _ => ⟨0, []⟩) := by
  intro g hg
  rw [List.mem_map] at hg
  obtain ⟨_, _, rfl⟩ := hg
  refine ⟨le_refl _, rfl, rfl, by simp, by simp⟩

theorem goodState_step (pgm : Nat → Option Nat) (seen : List Nat)
    (gs gs' : List GroupShard) (p : Nat) (sz : Int)
    (hgood : GoodState seen gs) (hsz : 0 ≤ sz) (hfresh : p ∉ seen)
    (hstep : groupShardsStep pgm gs (p, sz) = some gs') :
    GoodState (seen ++ [p]) gs' := by
  unfold groupShardsStep at hstep
  split at hstep
  · exact absurd hstep (by simp)
  · rename_i gi hpgm
    split at hstep
    · exact absurd hstep (by simp)
    · rename_i g hget
      simp only [Option.some.injEq] at hstep
      subst hstep
      have hgmem : g ∈ gs := List.get?_mem hget
      obtain ⟨hg0, hgch, hgend, hgnn, hgkeys⟩ := hgood g hgmem
      have hnotin : g.param_map.any (fun e => e.1 == p) = false := by
        rw [List.any_eq_false]
        intro e he
        simp only [beq_iff_eq]
        intro hep
        exact hfresh (hep ▸ hgkeys e he)
      intro g' hg'
      rcases List.mem_or_eq_of_mem_set hg' with hmem | rfl
      · obtain ⟨h0, hch, hend, hnn, hkeys⟩ := hgood g' hmem
        exact ⟨h0, hch, hend, hnn,
          fun e he => List.mem_append_left _ (hkeys e he)⟩
      · have hmap : dictSet g.param_map p ⟨g.size, g.size + sz⟩ =
            g.param_map ++ [(p, (⟨g.size, g.size + sz⟩ : Shard))] := by
          unfold dictSet
          rw [hnotin]
          simp
        refine ⟨?_, ?_, ?_, ?_, ?_⟩
        · show 0 ≤ g.size + sz
          omega
        · show chainedFromB 0
            (dictSet g.param_map p ⟨g.size, g.size + sz⟩) = true
          rw [hmap]
          refine chainedFromB_append 0 g.param_map _ hgch ?_
          rw [hgend]
        · show chainEnd 0
            (dictSet g.param_map p ⟨g.size, g.size + sz⟩) = g.size + sz
          rw [hmap, chainEnd_append, hgend]
          rfl
        · show ∀ e ∈ dictSet g.param_map p ⟨g.size, g.size + sz⟩, 0 ≤ e.2.size
          rw [hmap]
          intro e he
          rcases List.mem_append.mp he with he' | he'
          · exact hgnn e he'
          · rw [List.mem_singleton] at he'
            subst he'
            show (0 : Int) ≤ g.size + sz - g.size
            omega
        · show ∀ e ∈ dictSet g.param_map p ⟨g.size, g.size + sz⟩,
            e.1 ∈ seen ++ [p]
          rw [hmap]
          intro e he
          rcases List.mem_append.mp he with he' | he'
          · exact List.mem_append_left _ (hgkeys e he')
          · rw [List.mem_singleton] at he'
            subst he'
            exact List.mem_append_right _ (by simp)

theorem goodState_fold (pgm : Nat → Option Nat)
    (entries : List (Nat × Int)) :
    ∀ (seen : List Nat) (gs gs' : List GroupShard), GoodState seen gs →
      (∀ e ∈ entries, 0 ≤ e.2) →
      (∀ e ∈ entries, e.1 ∉ seen) →
      (entries.map Prod.fst).Nodup →
      entries.foldlM (groupShardsStep pgm) gs = some gs' →
      GoodState (seen ++ entries.map Prod.fst) gs' := by
  induction entries with
  | nil =>
    intro seen gs gs' hgood _ _ _ hfold
    simp only [List.foldlM_nil, pure, Option.some.injEq] at hfold
    subst hfold
    simpa using hgood
  | cons e rest ih =>
    intro seen gs gs' hgood hsz hfresh hnd hfold
    rw [List.foldlM_cons] at hfold
    cases hstep : groupShardsStep pgm gs e with
    | none => rw [hstep] at hfold; exact absurd hfold (by simp [Option.bind])
    | some gs1 =>
      rw [hstep] at hfold
      simp only [Option.bind_eq_bind, Option.some_bind] at hfold
      have hgood1 : GoodState (seen ++ [e.1]) gs1 :=
        goodState_step pgm seen gs gs1 e.1 e.2 hgood
          (hsz e (List.mem_cons_self e rest)) (hfresh e (List.mem_cons_self e rest)) hstep
      simp only [List.map_cons, List.nodup_cons] at hnd
      have hres := ih (seen ++ [e.1]) gs1 gs' hgood1
        (fun f hf => hsz f (List.mem_cons_of_mem _ hf))
        (fun f hf => by
          rw [List.mem_append, List.mem_singleton]
          rintro (hin | heq)
          · exact hfresh f (List.mem_cons_of_mem _ hf) hin
          · exact hnd.1 (heq ▸ List.mem_map_of_mem Prod.fst hf))
        hnd.2 hfold
      simpa [List.append_assoc] using hres

theorem allocateMainParamShards_of_ne_zero (l : List OptGroupShard)
    (h : ∀ g ∈ l, g.size ≠ 0) :
    allocateMainParamShards l =
      some (l.map fun g =>
        ⟨⟨g.size, Dtype.F32⟩, ⟨g.size, Dtype.F32⟩, true⟩) := by
  induction l with
  | nil => rfl
  | cons g rest ih =>
    unfold allocateMainParamShards at ih ⊢
    rw [List.mapM_cons, if_pos (h g (List.mem_cons_self g rest)),
      ih (fun f hf => h f (List.mem_cons_of_mem _ hf))]
    rfl

/-- C3: under the real pipeline's preconditions (each parameter occurs once
across the `(model, dtype)` shard maps, with nonnegative shard size), every
group retained by `get_optimizer_group_shards` has positive size equal to
the sum of its master-range sizes; the master ranges are assigned
consecutively in iteration order, are pairwise disjoint (ordered), and lie
within `[0, group_size)`; and `allocate_main_param_shards` backs each
retained group with a flat float32 master parameter and a flat float32
master gradient, both of length `group_size`. -/
theorem C3_group_shards_and_alloc (paramGroups : List (List Nat))
    (modelGbufShards : List (List (Dtype × GbufShardMap)))
    (result : List OptGroupShard)
    (hsz : ∀ e ∈ flattenGbufParams modelGbufShards, 0 ≤ e.2)
    (hnd : ((flattenGbufParams modelGbufShards).map Prod.fst).Nodup)
    (hres : getOptimizerGroupShards paramGroups modelGbufShards =
      some result) :
    (∀ g ∈ result,
      0 < g.size ∧
      g.size = sumSizes g.param_map ∧
      chainedFromB 0 g.param_map = true ∧
      List.Pairwise (fun a b : Nat × Shard => a.2.stop ≤ b.2.start)
        g.param_map ∧
      (∀ e ∈ g.param_map, 0 ≤ e.2.start ∧ e.2.stop ≤ g.size)) ∧
    allocateMainParamShards result =
      some (result.map fun g =>
        ⟨⟨g.size, Dtype.F32⟩, ⟨g.size, Dtype.F32⟩, true⟩) := by
  unfold getOptimizerGroupShards at hres
  cases hfold : (flattenGbufParams modelGbufShards).foldlM
      (groupShardsStep (buildParamGroupMap paramGroups))
      (paramGroups.map fun _ => ⟨0, []⟩) with
  | none =>
    simp only [hfold, Option.map_none', reduceCtorEq] at hres
  | some gs =>
    simp only [hfold, Option.map_some', Option.some.injEq] at hres
    have hgood : GoodState
        ([] ++ (flattenGbufParams modelGbufShards).map Prod.fst) gs :=
      goodState_fold (buildParamGroupMap paramGroups)
        (flattenGbufParams modelGbufShards) [] _ gs
        (goodState_init paramGroups) hsz (by simp) hnd hfold
    have hmain : ∀ g ∈ result,
        0 < g.size ∧
        g.size = sumSizes g.param_map ∧
        chainedFromB 0 g.param_map = true ∧
        List.Pairwise (fun a b : Nat × Shard => a.2.stop ≤ b.2.start)
          g.param_map ∧
        (∀ e ∈ g.param_map, 0 ≤ e.2.start ∧ e.2.stop ≤ g.size) := by
      intro g hg
      rw [← hres] at hg
      rw [List.mem_filter] at hg
      obtain ⟨hgm, hgpos⟩ := hg
      rw [List.mem_map] at hgm
      obtain ⟨gz, hgz, rfl⟩ := hgm
      obtain ⟨hz1, _⟩ := List.of_mem_zip hgz
      obtain ⟨_, hch, hend, hnn, _⟩ := hgood gz.1 hz1
      have hpos : 0 < gz.1.size := by
        have := of_decide_eq_true hgpos
        exact this
      obtain ⟨hbd, hpw⟩ := chained_ordered 0 gz.1.param_map hch hnn
      refine ⟨hpos, ?_, hch, hpw, ?_⟩
      · have := chainEnd_of_chained 0 gz.1.param_map hch
        rw [hend] at this
        simpa using this
      · intro e he
        have := hbd e he
        rw [hend] at this
        exact this
    refine ⟨hmain, ?_⟩
    exact allocateMainParamShards_of_ne_zero result
      (fun g hg => ne_of_gt (hmain g hg).1)

/-- C3 (witness): two groups `[[0], [1, 2]]` and one grad buffer holding
parameter 0 with shard size 2 and parameter 1 with shard size 3; both
groups are retained, sized 2 and 3, and allocated float32 master tensors
of those lengths. -/
theorem C3_group_shards_and_alloc_witness :
    (∀ e ∈ flattenGbufParams
        [[(Dtype.F16,
            ⟨⟨0, 5⟩, ⟨0, 5⟩, [⟨0, 5⟩],
              [(0, ⟨⟨0, 2⟩, ⟨0, 2⟩, ⟨0, 2⟩⟩),
                (1, ⟨⟨2, 5⟩, ⟨2, 5⟩, ⟨0, 3⟩⟩)]⟩)]], 0 ≤ e.2) ∧
    (((flattenGbufParams
        [[(Dtype.F16,
            ⟨⟨0, 5⟩, ⟨0, 5⟩, [⟨0, 5⟩],
              [(0, ⟨⟨0, 2⟩, ⟨0, 2⟩, ⟨0, 2⟩⟩),
                (1, ⟨⟨2, 5⟩, ⟨2, 5⟩, ⟨0, 3⟩⟩)]⟩)]]).map Prod.fst).Nodup) ∧
    ((∀ g ∈ [(⟨2, [(0, ⟨0, 2⟩)], [0]⟩ : OptGroupShard),
        ⟨3, [(1, ⟨0, 3⟩)], [1, 2]⟩],
      0 < g.size ∧
      g.size = sumSizes g.param_map ∧
      chainedFromB 0 g.param_map = true ∧
      List.Pairwise (fun a b : Nat × Shard => a.2.stop ≤ b.2.start)
        g.param_map ∧
      (∀ e ∈ g.param_map, 0 ≤ e.2.start ∧ e.2.stop ≤ g.size)) ∧
    allocateMainParamShards
        [⟨2, [(0, ⟨0, 2⟩)], [0]⟩, ⟨3, [(1, ⟨0, 3⟩)], [1, 2]⟩] =
      some ([(⟨2, [(0, ⟨0, 2⟩)], [0]⟩ : OptGroupShard),
          ⟨3, [(1, ⟨0, 3⟩)], [1, 2]⟩].map fun g =>
        ⟨⟨g.size, Dtype.F32⟩, ⟨g.size, Dtype.F32⟩, true⟩)) :=
  ⟨by decide, by decide,
    C3_group_shards_and_alloc [[0], [1, 2]]
      [[(Dtype.F16,
          ⟨⟨0, 5⟩, ⟨0, 5⟩, [⟨0, 5⟩],
            [(0, ⟨⟨0, 2⟩, ⟨0, 2⟩, ⟨0, 2⟩⟩),
              (1, ⟨⟨2, 5⟩, ⟨2, 5⟩, ⟨0, 3⟩⟩)]⟩)]]
      [⟨2, [(0, ⟨0, 2⟩)], [0]⟩, ⟨3, [(1, ⟨0, 3⟩)], [1, 2]⟩]
      (by decide) (by decide) (by decide)⟩

/-- Exact model of a floating-point scalar: a rational value or one of the
non-finite markers NaN / +∞ / −∞. -/
inductive FloatV where
  | finite (q : ℚ)
  | nan
  | inf
  | neginf
  deriving Repr, DecidableEq

/-- `torch.isfinite` on one element. -/
def FloatV.isFinite : FloatV → Bool
  | finite _ => true
  | _ => false

/-- Multiplication of a value by a finite rational scalar. -/
def FloatV.scaleBy (c : ℚ) : FloatV → FloatV
  | finite q => finite (c * q)
  | nan => nan
  | inf => if 0 < c then inf else if c < 0 then neginf else nan
  | neginf => if 0 < c then neginf else if c < 0 then inf else nan

/-- Modelled from the spec: `torch._amp_foreach_non_finite_check_and_unscale_`
(torch is an external collaborator, spec §4.F): "atomically test-and-unscale
(multiply by 1/scale only where finite, set non-finite flag if any element
is NaN or ±∞)". -/
def nonFiniteCheckAndUnscale (grads : List FloatV) (invScale : ℚ) :
    List FloatV × Bool :=
  (grads.map fun v => if v.isFinite then v.scaleBy invScale else v,
    grads.any fun v => !v.isFinite)

/-- Modelled from the spec: `torch.distributed.all_reduce` with
`ReduceOp.MAX` on a `{0,1}` device flag (spec §5): every rank receives `1`
iff some rank's flag is `1`. -/
def allReduceMaxFlag (flags : List Bool) : Bool := flags.any id

/-- Modelled from the spec: the dynamic loss scaler (`grad_scaler.py` is
not among the sources; spec §4.F): on overflow multiply the scale by the
backoff factor and reset the good-step counter; after `growth_interval`
consecutive non-overflow steps multiply the scale by the growth factor. -/
structure GradScaler where
  scale : ℚ
  growthFactor : ℚ
  backoffFactor : ℚ
  growthInterval : Nat
  numGoodSteps : Nat
  deriving Repr, DecidableEq

/-- The scaler's inverse-scale tensor. -/
def GradScaler.invScale (gs : GradScaler) : ℚ := 1 / gs.scale

/-- Modelled from the spec: `grad_scaler.update(found_inf_flag)`. -/
def GradScaler.update (gs : GradScaler) (foundInf : Bool) : GradScaler :=
  if foundInf then
    { gs with scale := gs.scale * gs.backoffFactor, numGoodSteps := 0 }
  else if gs.growthInterval ≤ gs.numGoodSteps + 1 then
    { gs with scale := gs.scale * gs.growthFactor, numGoodSteps := 0 }
  else { gs with numGoodSteps := gs.numGoodSteps + 1 }

/-- The state of a `BaseFloat16Optimizer` visible to the claims:
construction flags, scaler state, and the contents of the model-side and
master-side flat parameter/gradient storage (content-wise: shard
bookkeeping is treated in C1–C3). -/
structure OptState where
  clipGrad : ℚ
  logNumZerosInGrad : Bool
  paramsHaveMainGrad : Bool
  useContiguousBuffersInLocalDdp : Bool
  bf16 : Bool
  gradScaler : Option GradScaler
  scaleOne : Option ℚ
  foundInf : Option ℚ
  dummyOverflowBuf : Option Int
  modelParams : List FloatV
  modelGrads : List FloatV
  mainParams : List FloatV
  mainGrads : List FloatV
  deriving Repr, DecidableEq

/-- `MegatronOptimizer.__init__`: `assert self.optimizer, 'no optimizer is
provided.'`, store the flags, and assert that contiguous buffers require
`params_have_main_grad`; assertion failures are `Except.error`. -/
def megatronOptimizerInit (optimizerProvided : Bool) (clipGrad : ℚ)
    (logNumZerosInGrad paramsHaveMainGrad useContiguousBuffersInLocalDdp :
      Bool) (modelParams modelGrads mainParams mainGrads : List FloatV) :
    Except String OptState :=
  if ¬ optimizerProvided then Except.error "no optimizer is provided."
  else if useContiguousBuffersInLocalDdp ∧ ¬ paramsHaveMainGrad then
    Except.error "use of contiguous buffer requires that params have main grad"
  else Except.ok
    { clipGrad := clipGrad
      logNumZerosInGrad := logNumZerosInGrad
      paramsHaveMainGrad := paramsHaveMainGrad
      useContiguousBuffersInLocalDdp := useContiguousBuffersInLocalDdp
      bf16 := false
      gradScaler := none
      scaleOne := none
      foundInf := none
      dummyOverflowBuf := none
      modelParams := modelParams
      modelGrads := modelGrads
      mainParams := mainParams
      mainGrads := mainGrads }

/-- `BaseFloat16Optimizer.__init__`: run the base constructor, then
`assert self.bf16, 'fp16 expects a grad scaler.'` when no scaler is given,
allocate `found_inf` only when a scaler is present, the dummy overflow
buffer only for fp16, and `_scale_one = 1.0` only when no scaler is
given. -/
def baseFloat16Init (optimizerProvided : Bool) (clipGrad : ℚ)
    (logNumZerosInGrad paramsHaveMainGrad useContiguousBuffersInLocalDdp
      bf16 : Bool) (gradScaler : Option GradScaler)
    (modelParams modelGrads mainParams mainGrads : List FloatV) :
    Except String OptState :=
  match megatronOptimizerInit optimizerProvided clipGrad
    logNumZerosInGrad paramsHaveMainGrad useContiguousBuffersInLocalDdp
    modelParams modelGrads mainParams mainGrads with
  | Except.error e => Except.error e
  | Except.ok base =>
    if gradScaler = none ∧ ¬ bf16 then
      Except.error "fp16 expects a grad scaler."
    else
      Except.ok { base with
        bf16 := bf16
        gradScaler := gradScaler
        foundInf := if gradScaler.isSome then some 0 else none
        dummyOverflowBuf := if bf16 then none else some 0
        scaleOne := if gradScaler = none then some 1 else none }

/-- `BaseFloat16Optimizer.get_loss_scale`: `_scale_one` when there is no
grad scaler, else the scaler's scale. -/
def getLossScale (st : OptState) : ℚ :=
  match st.gradScaler with
  | none => st.scaleOne.getD 0
  | some gs => gs.scale

/-- `MegatronOptimizer.clip_grad_norm`: the method begins with a bare debug
`return`, so it returns `None` without computing a norm and without
modifying any gradient; the `clip_grad_norm_fp32` call below that `return`
is dead code. -/
def clipGradNorm (_clipGrad : ℚ) : Option ℚ := none

/-- Modelled from the spec: `count_zeros_fp32` (`clip_grads.py` is not
among the sources; spec §4.I "optionally counts zero-valued grad
elements"). -/
def countZeros (grads : List FloatV) : Nat :=
  grads.countP fun v => v == FloatV.finite 0

/-- `_copy_model_grads_to_main_grads`, content-wise: the master gradient
storage receives the model-side gradient contents (per-shard index
bookkeeping is proved in C2/C3). -/
def copyModelGradsToMainGrads (st : OptState) : OptState :=
  { st with mainGrads := st.modelGrads }

/-- The local part of `_unscale_main_grads_and_check_for_nan`: reset
`found_inf` to 0, unscale the collected master grads and record whether any
element was non-finite. -/
def localUnscaleAndCheck (st : OptState) (gs : GradScaler) :
    OptState × Bool :=
  let r := nonFiniteCheckAndUnscale st.mainGrads gs.invScale
  ({ st with mainGrads := r.1, foundInf := some (if r.2 then 1 else 0) },
    r.2)

/-- The success path of `BaseFloat16Optimizer.step`: `grad_norm` via
`clip_grad_norm` when `clip_grad > 0`, optional zero count, inner
`optimizer.step()` (external, passed as a function of the master params and
grads), then `_copy_main_params_to_model_params`. Returns
`(True, grad_norm, num_zeros_in_grad)`. -/
def stepSuccess (innerStep : List FloatV → List FloatV → List FloatV)
    (st : OptState) : OptState × (Bool × Option ℚ × Option Nat) :=
  let gradNorm : Option ℚ :=
    if 0 < st.clipGrad then clipGradNorm st.clipGrad else none
  let numZeros : Option Nat :=
    if st.logNumZerosInGrad then some (countZeros st.mainGrads) else none
  let newMain := innerStep st.mainParams st.mainGrads
  let st1 := { st with mainParams := newMain }
  let st2 := { st1 with modelParams := st1.mainParams }
  (st2, (true, gradNorm, numZeros))

/-- `BaseFloat16Optimizer.step` on one rank, given the world-combined
found-inf flag: copy model grads to main grads; with a scaler, unscale and
check, update the scaler, and on overflow return `(False, None, None)`
leaving the master parameters untouched (the `pax` call there is a debug
log hook); otherwise run the success path. -/
def stepRank (innerStep : List FloatV → List FloatV → List FloatV)
    (globalFoundInf : Bool) (st : OptState) :
    OptState × (Bool × Option ℚ × Option Nat) :=
  let stc := copyModelGradsToMainGrads st
  match stc.gradScaler with
  | some gs =>
    let st1 := (localUnscaleAndCheck stc gs).1
    let st2 := { st1 with gradScaler := some (gs.update globalFoundInf) }
    if globalFoundInf then (st2, (false, none, none))
    else stepSuccess innerStep st2
  | none => stepSuccess innerStep stc

/-- One rank's local found-inf flag, as computed inside
`_unscale_main_grads_and_check_for_nan` before the all-reduce (ranks
without a scaler never enter that code path). -/
def localFoundInfFlag (st : OptState) : Bool :=
  match st.gradScaler with
  | some gs =>
    (nonFiniteCheckAndUnscale (copyModelGradsToMainGrads st).mainGrads
      gs.invScale).2
  | none => false

/-- The data-parallel world runs `step` collectively: each rank computes
its local found-inf flag, the flags are max-reduced across the world, and
every rank then runs `stepRank` with the combined flag. -/
def stepWorld (innerStep : List FloatV → List FloatV → List FloatV)
    (world : List OptState) :
    List (OptState × (Bool × Option ℚ × Option Nat)) :=
  world.map
    (stepRank innerStep (allReduceMaxFlag (world.map localFoundInfFlag)))

theorem stepWorld_length (innerStep : List FloatV → List FloatV → List FloatV)
    (world : List OptState) :
    (stepWorld innerStep world).length = world.length := by
  unfold stepWorld
  rw [List.length_map]

theorem allReduceMaxFlag_of_nonfinite (world : List OptState)
    (hscaler : ∀ st ∈ world, st.gradScaler.isSome)
    (hinf : ∃ st ∈ world, ∃ v ∈ st.modelGrads, v.isFinite = false) :
    allReduceMaxFlag (world.map localFoundInfFlag) = true := by
  obtain ⟨st, hstw, v, hv, hnf⟩ := hinf
  unfold allReduceMaxFlag
  rw [List.any_eq_true]
  refine ⟨localFoundInfFlag st, List.mem_map_of_mem _ hstw, ?_⟩
  obtain ⟨gs, hgs⟩ := Option.isSome_iff_exists.mp (hscaler st hstw)
  unfold localFoundInfFlag
  rw [hgs]
  unfold nonFiniteCheckAndUnscale copyModelGradsToMainGrads
  simp only [id_eq, List.any_eq_true]
  exact ⟨v, hv, by rw [hnf]; rfl⟩

/-- C4: if any element of any rank's master gradients (equivalently, with
exact arithmetic, of the copied-in model gradients) is non-finite, then on
every rank `step()` returns `(False, None, None)`, the master parameters
are unchanged, and the loss scale is updated with the backoff factor; the
found-inf flag is max-reduced so one overflowing rank makes all ranks
skip. -/
theorem C4_overflow_skips_step
    (innerStep : List FloatV → List FloatV → List FloatV)
    (world : List OptState)
    (hscaler : ∀ st ∈ world, st.gradScaler.isSome)
    (hinf : ∃ st ∈ world, ∃ v ∈ st.modelGrads, v.isFinite = false) :
    ∀ (i : Nat) (hi : i < world.length)
      (hi2 : i < (stepWorld innerStep world).length),
      ((stepWorld innerStep world).get ⟨i, hi2⟩).2 = (false, none, none) ∧
      ((stepWorld innerStep world).get ⟨i, hi2⟩).1.mainParams =
        (world.get ⟨i, hi⟩).mainParams ∧
      (∀ gs : GradScaler, (world.get ⟨i, hi⟩).gradScaler = some gs →
        ((stepWorld innerStep world).get ⟨i, hi2⟩).1.gradScaler =
          some (gs.update true) ∧
        (gs.update true).scale = gs.scale * gs.backoffFactor) := by
  intro i hi hi2
  have hflag := allReduceMaxFlag_of_nonfinite world hscaler hinf
  have hget : (stepWorld innerStep world).get ⟨i, hi2⟩ =
      stepRank innerStep true (world.get ⟨i, hi⟩) := by
    unfold stepWorld
    simp only [List.get_eq_getElem, List.getElem_map, hflag]
  rw [hget]
  have hmem : world.get ⟨i, hi⟩ ∈ world := world.get_mem i hi
  generalize world.get ⟨i, hi⟩ = st at hmem ⊢
  obtain ⟨gs, hgs⟩ := Option.isSome_iff_exists.mp (hscaler st hmem)
  obtain ⟨cg, lz, pm, uc, bf, sc, so, fi, db, mp, mg, mainP, mainG⟩ := st
  simp only [OptState.gradScaler] at hgs
  subst hgs
  refine ⟨rfl, rfl, ?_⟩
  intro gs' hgs'
  simp only [OptState.gradScaler, Option.some.injEq] at hgs'
  subst hgs'
  refine ⟨rfl, ?_⟩
  unfold GradScaler.update
  rw [if_pos rfl]

/-- A dynamic grad scaler instance used in concrete scenarios. -/
def exScaler : GradScaler :=
  { scale := 65536, growthFactor := 2, backoffFactor := 1 / 2,
    growthInterval := 1000, numGoodSteps := 0 }

/-- A rank state whose model gradient holds `+∞` (spec scenario S4). -/
def exState0 : OptState :=
  { clipGrad := 0, logNumZerosInGrad := false, paramsHaveMainGrad := true,
    useContiguousBuffersInLocalDdp := true, bf16 := false,
    gradScaler := some exScaler, scaleOne := none, foundInf := some 0,
    dummyOverflowBuf := some 0, modelParams := [FloatV.finite 1],
    modelGrads := [FloatV.inf], mainParams := [FloatV.finite 1],
    mainGrads := [FloatV.finite 0] }

/-- A rank state with a finite model gradient. -/
def exState1 : OptState :=
  { exState0 with modelGrads := [FloatV.finite 2] }

/-- C4 (witness): with two ranks, rank 0 holding `+∞` in its gradient,
both ranks return `(False, None, None)` (shown for rank 1, which has only
finite gradients), master parameters are unchanged, and the scale is
multiplied by the backoff factor. -/
theorem C4_overflow_skips_step_witness :
    (∀ st ∈ [exState0, exState1], st.gradScaler.isSome) ∧
    (∃ st ∈ [exState0, exState1], ∃ v ∈ st.modelGrads,
      v.isFinite = false) ∧
    (((stepWorld (fun p _ => p) [exState0, exState1]).get
        ⟨1, by decide⟩).2 = (false, none, none) ∧
      ((stepWorld (fun p _ => p) [exState0, exState1]).get
        ⟨1, by decide⟩).1.mainParams =
        ([exState0, exState1].get ⟨1, by decide⟩).mainParams ∧
      (∀ gs : GradScaler,
        ([exState0, exState1].get ⟨1, by decide⟩).gradScaler = some gs →
        ((stepWorld (fun p _ => p) [exState0, exState1]).get
          ⟨1, by decide⟩).1.gradScaler = some (gs.update true) ∧
        (gs.update true).scale = gs.scale * gs.backoffFactor)) :=
  ⟨by decide, by decide,
    C4_overflow_skips_step (fun p _ => p) [exState0, exState1]
      (by decide) (by decide) 1 (by decide) (by decide)⟩

/-- The in-place `gbuf /= data_parallel_world_size` of
`Float16DistributedOptimizer.reduce_grads`: every rank divides its whole
per-dtype grad buffer by the world size before any communication.  A
buffer is modelled content-wise as `index → value`, a world of buffers as
`rank → index → value`. -/
def divideGbufByWorld (W : Nat) (bufs : Nat → Nat → ℚ) : Nat → Nat → ℚ :=
  fun r i => bufs r i / (W : ℚ)

/-- Modelled from the spec: `torch.distributed.reduce_scatter` over the
per-rank `world_all` views of `get_model_grad_buffer_dp_views` (the
collective backend is an external collaborator): each rank receives, in
its own view `world_all[rank]`, the element-wise sum of the corresponding
views over all ranks; positions outside the rank's own shard keep that
rank's input values. -/
def reduceScatterGbuf (W N : Nat) (bufs : Nat → Nat → ℚ) :
    Nat → Nat → ℚ :=
  fun r i =>
    if ((gbufWorldAllShards N W).getD r ⟨0, 0⟩).mem (i : Int) then
      ((List.range W).map fun r2 => bufs r2 i).sum
    else bufs r i

/-- The reduce-scatter phase of `reduce_grads` for one `(model, dtype)`
grad buffer: divide in place by the world size first, then reduce-scatter
over the `world_all` views. -/
def reduceGradsGbuf (W N : Nat) (bufs : Nat → Nat → ℚ) :
    Nat → Nat → ℚ :=
  reduceScatterGbuf W N (divideGbufByWorld W bufs)

/-- C5: after `reduce_grads`, rank `r` holds, at every position of its own
world shard `world_all[r]`, the sum over all ranks of the divided buffers,
i.e. the mean of the original per-rank gradients. -/
theorem C5_reduce_grads_mean (W N : Nat) (bufs : Nat → Nat → ℚ)
    (r : Nat) (i : Nat)
    (hmem : ((gbufWorldAllShards N W).getD r ⟨0, 0⟩).mem (i : Int)) :
    reduceGradsGbuf W N bufs r i =
      (((List.range W).map fun r2 => bufs r2 i).sum) / (W : ℚ) := by
  unfold reduceGradsGbuf reduceScatterGbuf divideGbufByWorld
  rw [if_pos hmem]
  rw [div_eq_mul_inv, ← List.sum_map_mul_right]
  congr 1

/-- C5 (witness): `W = 2`, `N = 4`, rank 0 holds all ones and rank 1 all
threes; at position 0 (inside rank 0's shard `[0, 2)`) the result is the
mean of the inputs. -/
theorem C5_reduce_grads_mean_witness :
    ((gbufWorldAllShards 4 2).getD 0 ⟨0, 0⟩).mem ((0 : Nat) : Int) ∧
    reduceGradsGbuf 2 4 (fun r _ => if r = 0 then 1 else 3) 0 0 =
      (((List.range 2).map fun r2 =>
        (fun r _ => if r = 0 then (1 : ℚ) else 3) r2 0).sum) / (2 : ℚ) :=
  ⟨by decide,
    C5_reduce_grads_mean 2 4 (fun r _ => if r = 0 then 1 else 3) 0 0
      (by decide)⟩

/-- C6: on every path, the `grad_norm` component returned by `step()` is
`None`, even when `clip_grad > 0`, because `MegatronOptimizer.
clip_grad_norm` begins with a bare debug `return` and neither computes the
global norm nor clips any gradient; this contradicts the claim that the
computed norm is returned. -/
theorem C6_grad_norm_always_none :
    (∀ c : ℚ, clipGradNorm c = none) ∧
    (∀ (innerStep : List FloatV → List FloatV → List FloatV)
      (flag : Bool) (st : OptState),
      (stepRank innerStep flag st).2.2.1 = none) := by
  refine ⟨fun _ => rfl, ?_⟩
  intro innerStep flag st
  obtain ⟨cg, lz, pm, uc, bf, sc, so, fi, db, mp, mg, mainP, mainG⟩ := st
  cases sc with
  | none =>
    show (stepSuccess innerStep _).2.2.1 = none
    unfold stepSuccess clipGradNorm
    simp only [ite_self]
  | some gs =>
    show (if flag = true then _ else stepSuccess innerStep _).2.2.1 = none
    cases flag with
    | true => rfl
    | false =>
      rw [if_neg (by simp)]
      unfold stepSuccess clipGradNorm
      simp only [ite_self]

/-- The parameter-group storage of `Float16OptimizerWithFloat16Params`
(the replicated variant): per group, per parameter, the tensor contents.
`float16Groups` are the model's half-precision parameters,
`fp32FromFloat16Groups` their fp32 master copies, `fp32FromFp32Groups` the
original fp32 parameters. -/
structure ReplState where
  float16Groups : List (List (List FloatV))
  fp32FromFloat16Groups : List (List (List FloatV))
  fp32FromFp32Groups : List (List (List FloatV))
  deriving Repr, DecidableEq

/-- `_copy_model_params_to_main_params` of the replicated variant
(via `_multi_tensor_copy_this_to_that(this=model_data, that=main_data)`):
each master tensor's content becomes its model twin's content; the model
side is read-only here. -/
def copyModelParamsToMainParams (st : ReplState) : ReplState :=
  { st with fp32FromFloat16Groups :=
      (st.float16Groups.zip st.fp32FromFloat16Groups).map fun gz =>
        (gz.1.zip gz.2).map Prod.fst }

/-- `Float16OptimizerWithFloat16Params.reload_model_params`:
`self._copy_model_params_to_main_params()`. -/
def replReloadModelParams (st : ReplState) : ReplState :=
  copyModelParamsToMainParams st

/-- `Float16OptimizerWithFloat16Params.gather_params`: `pass`. -/
def replGatherParams (st : ReplState) : ReplState := st

/-- The state of a `Float16DistributedOptimizer`: the base float16 state
plus the frozen shard bookkeeping computed at construction. -/
structure DistOptState where
  base : OptState
  modelGbufShards : List (List (Dtype × GbufShardMap))
  optGroupShards : List OptGroupShard
  deriving Repr, DecidableEq

/-- `Float16DistributedOptimizer.state_dict`: `raise Exception("hi.")`. -/
def distStateDict (_st : DistOptState) : Except String (List FloatV) :=
  Except.error "hi."

/-- `Float16DistributedOptimizer.load_state_dict`: declared as
`def load_state_dict(self)` and its body is `raise Exception("hi.")`;
a call passing a state dict raises `TypeError` before the body runs, a
call without one raises the exception, so every call raises. -/
def distLoadStateDict (_st : DistOptState) : Except String DistOptState :=
  Except.error "hi."

/-- `Float16DistributedOptimizer.reload_model_params`:
`raise Exception("hi.")`. -/
def distReloadModelParams (_st : DistOptState) : Except String DistOptState :=
  Except.error "hi."

/-- A concrete distributed-optimizer state. -/
def exDistState : DistOptState :=
  { base := exState1, modelGbufShards := [], optGroupShards := [] }

/-- C7 (counterexample): on the distributed variant the claimed sequence
cannot even start: `reload_model_params` raises `Exception("hi.")`, so the
round trip does not complete and leave the parameters unchanged. -/
theorem C7_counterexample :
    distReloadModelParams exDistState = Except.error "hi." := rfl

/-- C7 (amended): for the replicated float16 variant,
`reload_model_params` (a model→master copy) followed by `gather_params`
(a no-op) leaves every model parameter bit-identical; on the distributed
variant `reload_model_params` always raises, so the round trip is
unavailable there. -/
theorem C7_reload_gather_roundtrip :
    (∀ st : ReplState,
      (replGatherParams (replReloadModelParams st)).float16Groups =
        st.float16Groups ∧
      (replGatherParams (replReloadModelParams st)).fp32FromFp32Groups =
        st.fp32FromFp32Groups) ∧
    (∀ dst : DistOptState,
      distReloadModelParams dst = Except.error "hi.") :=
  ⟨fun _ => ⟨rfl, rfl⟩, fun _ => rfl⟩

/-- C8: constructing a `BaseFloat16Optimizer` with `grad_scaler = None`
and `bf16 = False` fails at construction (`'fp16 expects a grad
scaler.'`); with `bf16 = True` and no scaler it succeeds (given valid base
flags) and `get_loss_scale()` returns the constant `_scale_one = 1.0`. -/
theorem C8_scaler_construction :
    (∀ (clipGrad : ℚ) (lz pm uc : Bool) (p1 g1 p2 g2 : List FloatV),
      ∃ e, baseFloat16Init true clipGrad lz pm uc false none p1 g1 p2 g2 =
        Except.error e) ∧
    (∀ (clipGrad : ℚ) (lz pm uc : Bool) (p1 g1 p2 g2 : List FloatV),
      (uc → pm) →
      ∃ st, baseFloat16Init true clipGrad lz pm uc true none p1 g1 p2 g2 =
        Except.ok st ∧ getLossScale st = 1) := by
  constructor
  · intro clipGrad lz pm uc p1 g1 p2 g2
    unfold baseFloat16Init
    cases hbase : megatronOptimizerInit true clipGrad lz pm uc p1 g1 p2 g2
      with
    | error e =>
      simp only [hbase]
      exact ⟨e, rfl⟩
    | ok base =>
      simp only [hbase]
      exact ⟨"fp16 expects a grad scaler.", rfl⟩
  · intro clipGrad lz pm uc p1 g1 p2 g2 hflags
    unfold baseFloat16Init
    have hbase : megatronOptimizerInit true clipGrad lz pm uc p1 g1 p2 g2 =
        Except.ok
          { clipGrad := clipGrad, logNumZerosInGrad := lz,
            paramsHaveMainGrad := pm, useContiguousBuffersInLocalDdp := uc,
            bf16 := false, gradScaler := none, scaleOne := none,
            foundInf := none, dummyOverflowBuf := none, modelParams := p1,
            modelGrads := g1, mainParams := p2, mainGrads := g2 } := by
      unfold megatronOptimizerInit
      rw [if_neg (by simp), if_neg ?_]
      rintro ⟨h1, h2⟩
      exact h2 (hflags h1)
    simp only [hbase]
    exact ⟨_, rfl, rfl⟩

/-- C8 (witness): with valid base flags, `bf16 = True` and no scaler the
constructor succeeds and the loss scale is the constant 1. -/
theorem C8_scaler_construction_witness :
    (false → false) ∧
    ∃ st, baseFloat16Init true 0 false false false true none [] [] [] [] =
      Except.ok st ∧ getLossScale st = 1 :=
  ⟨fun h => h,
    (C8_scaler_construction).2 0 false false false [] [] [] [] (fun h => h)⟩

/-- C9: every call to `state_dict` or `load_state_dict` on the distributed
variant raises, for every optimizer state: checkpoint save and load are
entirely unavailable there. -/
theorem C9_dist_state_dict_raises :
    ∀ st : DistOptState,
      distStateDict st = Except.error "hi." ∧
      distLoadStateDict st = Except.error "hi." :=
  fun _ => ⟨rfl, rfl⟩

/-- C10: constructing any `MegatronOptimizer` with
`use_contiguous_buffers_in_local_ddp = True` and
`params_have_main_grad = False` fails the constructor assertion; every
successfully constructed state satisfies `use_contiguous → main_grad`; and
`step` never changes the two flags, so the invariant is preserved. -/
theorem C10_contiguous_requires_main_grad :
    (∀ (opt : Bool) (cg : ℚ) (lz : Bool) (p1 g1 p2 g2 : List FloatV),
      ∃ e, megatronOptimizerInit opt cg lz false true p1 g1 p2 g2 =
        Except.error e) ∧
    (∀ (opt : Bool) (cg : ℚ) (lz pm uc : Bool)
      (p1 g1 p2 g2 : List FloatV) (st : OptState),
      megatronOptimizerInit opt cg lz pm uc p1 g1 p2 g2 = Except.ok st →
      (st.useContiguousBuffersInLocalDdp → st.paramsHaveMainGrad)) ∧
    (∀ (innerStep : List FloatV → List FloatV → List FloatV) (flag : Bool)
      (st : OptState),
      (stepRank innerStep flag st).1.useContiguousBuffersInLocalDdp =
        st.useContiguousBuffersInLocalDdp ∧
      (stepRank innerStep flag st).1.paramsHaveMainGrad =
        st.paramsHaveMainGrad) := by
  refine ⟨?_, ?_, ?_⟩
  · intro opt cg lz p1 g1 p2 g2
    unfold megatronOptimizerInit
    by_cases hopt : (opt : Prop)
    · rw [if_neg (by simpa using hopt), if_pos ⟨rfl, by simp⟩]
      exact ⟨_, rfl⟩
    · rw [if_pos (by simpa using hopt)]
      exact ⟨_, rfl⟩
  · intro opt cg lz pm uc p1 g1 p2 g2 st hok
    unfold megatronOptimizerInit at hok
    by_cases hopt : (opt : Prop)
    · rw [if_neg (by simpa using hopt)] at hok
      by_cases hc : uc = true ∧ ¬ pm = true
      · rw [if_pos hc] at hok
        exact absurd hok (by simp)
      · rw [if_neg hc] at hok
        injection hok with hok
        subst hok
        intro huc
        by_contra hpm
        exact hc ⟨huc, by simpa using hpm⟩
    · rw [if_pos (by simpa using hopt)] at hok
      exact absurd hok (by simp)
  · intro innerStep flag st
    obtain ⟨cg, lz, pm, uc, bf, sc, so, fi, db, mp, mg, mainP, mainG⟩ := st
    cases sc with
    | none =>
      exact ⟨rfl, rfl⟩
    | some gs =>
      cases flag with
      | true => exact ⟨rfl, rfl⟩
      | false => exact ⟨rfl, rfl⟩

/-- A successfully constructed base-optimizer state. -/
def exOkState : OptState :=
  { clipGrad := 0, logNumZerosInGrad := false, paramsHaveMainGrad := true,
    useContiguousBuffersInLocalDdp := true, bf16 := false,
    gradScaler := none, scaleOne := none, foundInf := none,
    dummyOverflowBuf := none, modelParams := [], modelGrads := [],
    mainParams := [], mainGrads := [] }

/-- C10 (witness): a concrete successful construction (with
`params_have_main_grad = True`) satisfies the invariant. -/
theorem C10_contiguous_requires_main_grad_witness :
    (megatronOptimizerInit true 0 false true true [] [] [] [] =
      Except.ok exOkState) ∧
    (exOkState.useContiguousBuffersInLocalDdp →
      exOkState.paramsHaveMainGrad) :=
  ⟨rfl,
    (C10_contiguous_requires_main_grad).2.1 true 0 false true true
      [] [] [] [] exOkState rfl⟩

end Megatron
